import Mathlib

/-!
Verification of the todo-cli interactive session engine.

The definitions below are a shallow embedding of the TypeScript sources:
the persisted record type and the store operations come from
src/database.ts, and the view-state, derivation pipeline
(filter, sort, paginate, selection resolution), command availability and
command handlers come from src/controller.ts together with the dispatch
loop in src/index.ts.  JavaScript machine details are modelled as
follows: strings are Lean strings compared by codepoint order
(localeCompare is modelled by the sign of that comparison), the stable
Array.prototype.sort is modelled by a stable insertion sort, and the
number-valued ids and pages are naturals (they are only ever incremented
or decremented under a positivity guard).
-/

namespace TodoCli

/-- A persisted todo record, from the Todo type of src/database.ts. -/
structure Todo where
  id : Nat
  title : String
  timestamp : String
  done : Bool
deriving DecidableEq, Repr

/-- Sort keys of the controller (field sortBy of src/controller.ts). -/
inductive SortKey where
  | status
  | title
  | timestamp
deriving DecidableEq, Repr

/-- Sort directions of the controller (field order of src/controller.ts). -/
inductive SortOrder where
  | asc
  | desc
deriving DecidableEq, Repr

/-- The session view state: the private fields of the Controller class of
src/controller.ts, with their initial values as defaults. -/
structure ViewState where
  page : Nat := 1
  pageSize : Nat := 10
  search : String := ""
  order : SortOrder := .asc
  sortBy : SortKey := .timestamp
  hideCompleted : Bool := false
  selectedTodoId : Option Nat := none
deriving DecidableEq, Repr

/-! ### Store operations (src/database.ts)

Every operation re-reads the whole collection from the backing file and,
when it mutates, writes the whole collection back.  The collection is
modelled as the list of records; an operation returns its JS return value
together with the collection it wrote, or none when it returned early
without writing. -/

/-- addTodo of src/database.ts: push a fresh record whose id is the
current length plus one onto the end of the collection.  The timestamp
(new Date().toISOString()) is passed in as a parameter. -/
def addTodo (todos : List Todo) (title timestamp : String) : List Todo :=
  todos ++ [{ id := todos.length + 1, title := title, timestamp := timestamp, done := false }]

/-- Flip the done flag of the first record with the given id (the JS code
mutates the object returned by Array.prototype.find). -/
def toggleFirst : List Todo → Nat → List Todo
  | [], _ => []
  | t :: ts, i => if t.id = i then { t with done := !t.done } :: ts else toggleFirst ts i |> (t :: ·)

/-- toggleTodoDone of src/database.ts: returns false and writes nothing
when no record has the id; otherwise flips the first matching record,
writes the collection and returns the new done value. -/
def toggleTodoDone (todos : List Todo) (i : Nat) : Bool × Option (List Todo) :=
  match todos.find? (fun t => t.id == i) with
  | none => (false, none)
  | some t => (!t.done, some (toggleFirst todos i))

/-- Remove the first record with the given id (todos.splice(indexOf, 1)). -/
def deleteFirst : List Todo → Nat → List Todo
  | [], _ => []
  | t :: ts, i => if t.id = i then ts else deleteFirst ts i |> (t :: ·)

/-- deleteTodo of src/database.ts: returns false and writes nothing when
no record has the id; otherwise removes the first matching record and
writes the collection. -/
def deleteTodo (todos : List Todo) (i : Nat) : Bool × Option (List Todo) :=
  match todos.find? (fun t => t.id == i) with
  | none => (false, none)
  | some _ => (true, some (deleteFirst todos i))

/-- Overwrite the title of the first record with the given id. -/
def editFirst : List Todo → Nat → String → List Todo
  | [], _, _ => []
  | t :: ts, i, title => if t.id = i then { t with title := title } :: ts else editFirst ts i title |> (t :: ·)

/-- editTodo of src/database.ts: returns false and writes nothing when no
record has the id; otherwise overwrites the title of the first matching
record and writes the collection. -/
def editTodo (todos : List Todo) (i : Nat) (title : String) : Bool × Option (List Todo) :=
  match todos.find? (fun t => t.id == i) with
  | none => (false, none)
  | some _ => (true, some (editFirst todos i title))

/-! ### Search filtering (method _getFilteredTodos, src/controller.ts)

The search text is split on the space character; each term is trimmed and
turned into a regular expression with every metacharacter escaped
(_escapeRegex) and the flags g and i.  A fresh RegExp tested against a
title therefore decides exactly whether the trimmed term occurs in the
title as a case-insensitive literal substring, which is what termMatches
computes below (ASCII case folding, as in the JS engines' simple fold for
these inputs). -/

/-- Whitespace as recognised by String.prototype.trim on the characters
that can reach the search text. -/
def isWs (ch : Char) : Bool :=
  ch == ' ' || ch == '\t' || ch == '\n' || ch == '\r'

/-- JS String.prototype.trim: drop whitespace from both ends. -/
def trimChars (l : List Char) : List Char :=
  ((l.dropWhile isWs).reverse.dropWhile isWs).reverse

/-- Case folding applied by the i flag, on the character list of a string. -/
def lowerList (l : List Char) : List Char :=
  l.map Char.toLower

/-- Decides whether the first list occurs at the head of the second. -/
def startsWithList : List Char → List Char → Bool
  | [], _ => true
  | _ :: _, [] => false
  | a :: as, b :: bs => a == b && startsWithList as bs

/-- Decides whether the first list occurs contiguously inside the second. -/
def containsSub : List Char → List Char → Bool
  | needle, [] => needle.isEmpty
  | needle, b :: rest => startsWithList needle (b :: rest) || containsSub needle rest

/-- JS String.prototype.split with the one-character separator, on the
character list of the string: the empty string yields one empty piece and
every separator occurrence starts a new piece. -/
def splitChar (sep : Char) : List Char → List (List Char)
  | [] => [[]]
  | ch :: rest =>
    let r := splitChar sep rest
    if ch = sep then [] :: r
    else
      match r with
      | [] => [[ch]]
      | h :: t => (ch :: h) :: t

/-- One search term accepted against a title: the escaped-regex test of
_getFilteredTodos, i.e. the trimmed term occurs case-insensitively in the
title. -/
def termMatches (term : List Char) (title : String) : Bool :=
  containsSub (lowerList (trimChars term)) (lowerList title.toList)

/-- A record survives the search of _getFilteredTodos when every term of
search.split(" ") matches its title. -/
def matchesSearch (search : String) (t : Todo) : Bool :=
  (splitChar ' ' search.toList).all fun term => termMatches term t.title

/-! ### Sorting (method _getFilteredTodos, src/controller.ts) -/

/-- Sign of JS String.prototype.localeCompare, modelled by codepoint
order. -/
def lcmp (a b : String) : Int :=
  if a < b then -1 else if b < a then 1 else 0

/-- The comparator passed to todos.sort in _getFilteredTodos: for the
status key, unequal done flags put the not-done record first and equal
flags fall back to the timestamps; the other keys compare the addressed
string field. -/
def todoCmp : SortKey → Todo → Todo → Int
  | .status, a, b =>
      if a.done = b.done then lcmp a.timestamp b.timestamp
      else if a.done then 1 else -1
  | .title, a, b => lcmp a.title b.title
  | .timestamp, a, b => lcmp a.timestamp b.timestamp

/-- The non-strict order induced by the comparator: a may stay before b
exactly when the comparator does not demand a swap.  Array.prototype.sort
is stable, so the sort stage is modelled by the stable insertion sort of
this relation. -/
def sortRel (sb : SortKey) (a b : Todo) : Prop :=
  todoCmp sb a b ≤ 0

instance instDecSortRel (sb : SortKey) : DecidableRel (sortRel sb) :=
  fun a b => inferInstanceAs (Decidable (todoCmp sb a b ≤ 0))

instance instTotalSortRel (sb : SortKey) : IsTotal Todo (sortRel sb) where
  total a b := by
    have lkey : ∀ x y : String, lcmp x y ≤ 0 ↔ x ≤ y := by
      intro x y
      unfold lcmp
      rcases lt_trichotomy x y with h | h | h
      · rw [if_pos h]
        exact iff_of_true (by norm_num) h.le
      · subst h
        simp [lt_irrefl]
      · rw [if_neg (lt_asymm h), if_pos h]
        exact iff_of_false (by norm_num) (not_le.mpr h)
    cases sb with
    | status =>
      show todoCmp .status a b ≤ 0 ∨ todoCmp .status b a ≤ 0
      simp only [todoCmp]
      by_cases h : a.done = b.done
      · rw [if_pos h, if_pos h.symm, lkey, lkey]
        exact le_total _ _
      · rw [if_neg h, if_neg (Ne.symm h)]
        cases had : a.done
        · left
          simp [had]
        · right
          have hbd : b.done = false := by
            cases hbd : b.done
            · rfl
            · exact absurd (had.trans hbd.symm) h
          simp [hbd]
    | title =>
      show todoCmp .title a b ≤ 0 ∨ todoCmp .title b a ≤ 0
      simp only [todoCmp]
      rw [lkey, lkey]
      exact le_total _ _
    | timestamp =>
      show todoCmp .timestamp a b ≤ 0 ∨ todoCmp .timestamp b a ≤ 0
      simp only [todoCmp]
      rw [lkey, lkey]
      exact le_total _ _

instance instTransSortRel (sb : SortKey) : IsTrans Todo (sortRel sb) where
  trans a b c hab hbc := by
    have lkey : ∀ x y : String, lcmp x y ≤ 0 ↔ x ≤ y := by
      intro x y
      unfold lcmp
      rcases lt_trichotomy x y with h | h | h
      · rw [if_pos h]
        exact iff_of_true (by norm_num) h.le
      · subst h
        simp [lt_irrefl]
      · rw [if_neg (lt_asymm h), if_pos h]
        exact iff_of_false (by norm_num) (not_le.mpr h)
    cases sb with
    | status =>
      have hstat : ∀ x y : Todo, sortRel .status x y ↔
          (x.done = y.done ∧ x.timestamp ≤ y.timestamp) ∨
            (x.done = false ∧ y.done = true) := by
        intro x y
        show todoCmp .status x y ≤ 0 ↔ _
        simp only [todoCmp]
        cases hxd : x.done <;> cases hyd : y.done <;>
          simp [hxd, hyd, lkey]
      rw [hstat] at hab hbc ⊢
      rcases hab with ⟨he1, ht1⟩ | ⟨ha1, hb1⟩
      · rcases hbc with ⟨he2, ht2⟩ | ⟨ha2, hb2⟩
        · exact Or.inl ⟨he1.trans he2, ht1.trans ht2⟩
        · exact Or.inr ⟨he1.trans ha2, hb2⟩
      · rcases hbc with ⟨he2, ht2⟩ | ⟨ha2, hb2⟩
        · exact Or.inr ⟨ha1, he2.symm.trans hb1⟩
        · exact Bool.noConfusion (hb1.symm.trans ha2)
    | title =>
      have h1 : todoCmp .title a b ≤ 0 := hab
      have h2 : todoCmp .title b c ≤ 0 := hbc
      show todoCmp .title a c ≤ 0
      simp only [todoCmp] at h1 h2 ⊢
      rw [lkey] at h1 h2 ⊢
      exact h1.trans h2
    | timestamp =>
      have h1 : todoCmp .timestamp a b ≤ 0 := hab
      have h2 : todoCmp .timestamp b c ≤ 0 := hbc
      show todoCmp .timestamp a c ≤ 0
      simp only [todoCmp] at h1 h2 ⊢
      rw [lkey] at h1 h2 ⊢
      exact h1.trans h2

/-! ### The derivation pipeline (src/controller.ts) -/

/-- Method _getFilteredTodos: start from the full stored collection, drop
done records when hideCompleted, keep search matches when the search text
is non-empty, sort when the sort key is not the default timestamp key,
and finally reverse when the order is descending. -/
def getFilteredTodos (db : List Todo) (v : ViewState) : List Todo :=
  let t1 := if v.hideCompleted then db.filter (fun t => !t.done) else db
  let t2 := if v.search ≠ "" then t1.filter (matchesSearch v.search) else t1
  let t3 := if v.sortBy ≠ .timestamp then t2.insertionSort (sortRel v.sortBy) else t2
  if v.order = .desc then t3.reverse else t3

/-- Method _getVisibleTodos: the slice
[(page-1)*pageSize, page*pageSize) of the filtered sequence, with the
clamping behaviour of Array.prototype.slice. -/
def getVisibleTodos (db : List Todo) (v : ViewState) : List Todo :=
  ((getFilteredTodos db v).take (v.page * v.pageSize)).drop ((v.page - 1) * v.pageSize)

/-- Method _getMaxPage: the ceiling of filtered count over page size
(pageSize is positive in every session state, see the availability
guards). -/
def getMaxPage (db : List Todo) (v : ViewState) : Nat :=
  ((getFilteredTodos db v).length + v.pageSize - 1) / v.pageSize

/-- JS truthiness of the nullable numeric _selectedTodoId: null and 0 are
falsy. -/
def idTruthy : Option Nat → Bool
  | none => false
  | some i => i != 0

/-- Method _getSelectedTodo: null unless _selectedTodoId is truthy and a
record with that id occurs in the currently visible page. -/
def getSelectedTodo (db : List Todo) (v : ViewState) : Option Todo :=
  match v.selectedTodoId with
  | none => none
  | some i =>
      if i = 0 then none
      else (getVisibleTodos db v).find? (fun t => t.id == i)

/-! ### The session state machine (src/index.ts and src/controller.ts)

A session state pairs the stored collection with the view state.  The
single-letter commands of the dispatch table in src/index.ts are modelled
as an inductive type whose parameters carry the free-text answers the
handler subsequently reads (the re-prompt loops of the reader only ever
hand an accepted answer to the handler, so the parameters carry the
accepted answer and the availability guard records its validation).
listActions computes the set of keys the reader will accept; a step of
the session is the dispatch of one offered command. -/

/-- A session state: the persisted collection plus the view state. -/
structure State where
  db : List Todo
  view : ViewState
deriving DecidableEq, Repr

/-- The commands of the dispatch table of src/index.ts.  Free-text
answers read inside a handler appear as parameters. -/
inductive Cmd where
  | quit
  | list
  | add (title timestamp : String)
  | reorder (sb : SortKey) (ord : SortOrder)
  | hideToggle
  | pageSize (n : Nat)
  | prevPage
  | nextPage
  | search (q : String)
  | select (n : Nat)
  | toggleDone
  | deleteSel
  | editSel (title : String)

/-- One accepted answer of the index prompt loop inside selectTodo
(src/controller.ts): an index that does not hit the visible page (the JS
code indexes todos[n-1], so 0 misses as well) reports an error and
re-prompts, leaving everything unchanged; an index of a visible todo
records that todo's id as selected.  The boolean is the valid flag of the
loop. -/
def selectTodoStep (s : State) (n : Nat) : State × Bool :=
  if n = 0 then (s, false)
  else
    match (getVisibleTodos s.db s.view)[n - 1]? with
    | none => (s, false)
    | some t => ({ s with view := { s.view with selectedTodoId := some t.id } }, true)

/-- Whether the inner select prompt would accept the index n in state s:
the loop of selectTodo terminates exactly on such answers. -/
def selectAccepts (s : State) (n : Nat) : Bool :=
  (selectTodoStep s n).2

/-- Method listActions of src/controller.ts, as the acceptance predicate
of the next command: with a resolved selection only deselect, toggle,
delete and edit are offered; otherwise the base set is offered, with
previous page gated by page > 1, next page by page < maxPage, search by a
non-empty stored collection and select by a non-empty visible page.
Parameters carried by a command are constrained by the accept regex of
the prompt that reads them (a non-empty line for add, a number at least 1
for the page size, an index of the visible page for select when the
selection is not merely stale). -/
def offered (s : State) : Cmd → Bool :=
  fun c =>
    match getSelectedTodo s.db s.view with
    | some _ =>
      match c with
      | .select _ => true
      | .toggleDone => true
      | .deleteSel => true
      | .editSel _ => true
      | _ => false
    | none =>
      match c with
      | .quit => true
      | .list => true
      | .add title _ => title != ""
      | .reorder _ _ => true
      | .hideToggle => true
      | .pageSize n => decide (1 ≤ n)
      | .prevPage => decide (1 < s.view.page)
      | .nextPage => decide (s.view.page < getMaxPage s.db s.view)
      | .search _ => decide (0 < s.db.length)
      | .select n =>
          decide (0 < (getVisibleTodos s.db s.view).length) &&
            (idTruthy s.view.selectedTodoId || selectAccepts s n)
      | .toggleDone => false
      | .deleteSel => false
      | .editSel _ => false

/-- The effect of dispatching one command, from the handlers of
src/controller.ts: quit and list leave the state alone (quit also
terminates the process), the navigation handlers move the page by one
without clamping, the filter and sort handlers toggle or overwrite their
fields, and the selection-dependent handlers act through the store by the
raw selected id whenever it is truthy. -/
def applyCmd (s : State) : Cmd → State
  | .quit => s
  | .list => s
  | .add title ts => { s with db := addTodo s.db title ts }
  | .reorder sb ord =>
      if s.view.sortBy ≠ .timestamp ∨ s.view.order ≠ .asc then
        { s with view := { s.view with sortBy := .timestamp, order := .asc } }
      else
        { s with view := { s.view with sortBy := sb, order := ord } }
  | .hideToggle => { s with view := { s.view with hideCompleted := !s.view.hideCompleted } }
  | .pageSize n => { s with view := { s.view with pageSize := n } }
  | .prevPage => { s with view := { s.view with page := s.view.page - 1 } }
  | .nextPage => { s with view := { s.view with page := s.view.page + 1 } }
  | .search q =>
      if s.view.search ≠ "" then { s with view := { s.view with search := "" } }
      else { s with view := { s.view with search := q } }
  | .select n =>
      if idTruthy s.view.selectedTodoId then
        { s with view := { s.view with selectedTodoId := none } }
      else (selectTodoStep s n).1
  | .toggleDone =>
      match s.view.selectedTodoId with
      | none => s
      | some i => if i = 0 then s else { s with db := (toggleTodoDone s.db i).2.getD s.db }
  | .deleteSel =>
      match s.view.selectedTodoId with
      | none => s
      | some i =>
          if i = 0 then s
          else { s with db := (deleteTodo s.db i).2.getD s.db,
                        view := { s.view with selectedTodoId := none } }
  | .editSel title =>
      match s.view.selectedTodoId with
      | none => s
      | some i => if i = 0 then s else { s with db := (editTodo s.db i title).2.getD s.db }

/-- One step of the main loop of src/index.ts: an offered command is
dispatched. -/
def SessStep (s s' : State) : Prop :=
  ∃ c, offered s c = true ∧ s' = applyCmd s c

/-- The state a session starts in: an empty backing file and the default
view state. -/
def initState : State :=
  { db := [], view := {} }

/-- Session states reachable from the initial state by offered
commands. -/
def ReachableS (s : State) : Prop :=
  Relation.ReflTransGen SessStep initState s

/-! ### The store as its own transition system (src/database.ts) -/

/-- The four mutating store operations. -/
inductive DbOp where
  | add (title timestamp : String)
  | toggle (i : Nat)
  | delete (i : Nat)
  | edit (i : Nat) (title : String)

/-- The collection after one store operation (the collection written, or
the unchanged collection when the operation found no record). -/
def applyDbOp (todos : List Todo) : DbOp → List Todo
  | .add title ts => addTodo todos title ts
  | .toggle i => (toggleTodoDone todos i).2.getD todos
  | .delete i => (deleteTodo todos i).2.getD todos
  | .edit i title => (editTodo todos i title).2.getD todos

/-- One store mutation. -/
def DbStep (d d' : List Todo) : Prop :=
  ∃ op, d' = applyDbOp d op

/-- Collections reachable from the empty collection created on first
run. -/
def DbReachable (d : List Todo) : Prop :=
  Relation.ReflTransGen DbStep [] d

/-! ### Rendering as an operation on the backing file (section 8 of the
spec) -/

/-- One render of the list: getTodos re-reads and re-parses the backing
file, the pipeline computes the visible slice on that fresh copy (the
in-place sort and reverse of _getFilteredTodos act on the copy), and
nothing is written back, so the derivation returns the visible slice
together with the file contents and the view state it leaves behind. -/
def deriveView (file : List Todo) (v : ViewState) : List Todo × List Todo × ViewState :=
  (getVisibleTodos file v, file, v)

/-! ### Specification-side notions used to compare the code with the
specification text -/

/-- Occurrence as a case-insensitive literal substring: the folded needle
occurs contiguously in the folded haystack. -/
def occursCI (needle hay : List Char) : Prop :=
  ∃ pre post, lowerList hay = pre ++ lowerList needle ++ post

/-- Splitting at every character satisfying the predicate (empty pieces
included). -/
def splitPred (p : Char → Bool) : List Char → List (List Char)
  | [] => [[]]
  | ch :: rest =>
    let r := splitPred p rest
    if p ch then [] :: r
    else
      match r with
      | [] => [[ch]]
      | h :: t => (ch :: h) :: t

/-- Modelled from the spec: the whitespace-separated terms of the search
text, as section 4.3 of the specification reads ("split on whitespace
into terms").  Compared against the code's split on the space
character. -/
def specWsTerms (l : List Char) : List (List Char) :=
  (splitPred isWs l).filter (fun t => !t.isEmpty)

/-! ## Helper lemmas -/

theorem find?_id_eq_none {todos : List Todo} {i : Nat} (h : ∀ t ∈ todos, t.id ≠ i) :
    todos.find? (fun t => t.id == i) = none := by
  rw [List.find?_eq_none]
  intro t ht
  simpa using h t ht

/-- C9: a store operation called with an id that matches no record
returns false and does not write any collection, for toggle, delete and
edit alike. -/
theorem store_missing_id_noop (todos : List Todo) (i : Nat) (title : String)
    (h : ∀ t ∈ todos, t.id ≠ i) :
    toggleTodoDone todos i = (false, none) ∧
    deleteTodo todos i = (false, none) ∧
    editTodo todos i title = (false, none) := by
  refine ⟨?_, ?_, ?_⟩ <;>
    simp [toggleTodoDone, deleteTodo, editTodo, find?_id_eq_none h]

theorem store_missing_id_noop_w :
    toggleTodoDone [{ id := 1, title := "a", timestamp := "t", done := false }] 5 = (false, none) ∧
    deleteTodo [{ id := 1, title := "a", timestamp := "t", done := false }] 5 = (false, none) ∧
    editTodo [{ id := 1, title := "a", timestamp := "t", done := false }] 5 "x" = (false, none) :=
  store_missing_id_noop [{ id := 1, title := "a", timestamp := "t", done := false }] 5 "x"
    (by decide)

theorem editFirst_eq (todos : List Todo) (i : Nat) (title : String) (k : Nat)
    (hk : k < todos.length) (hid : (todos.get ⟨k, hk⟩).id = i)
    (hfirst : (todos.take k).all (fun t => t.id != i) = true) :
    editFirst todos i title =
      todos.take k ++ { todos.get ⟨k, hk⟩ with title := title } :: todos.drop (k + 1) := by
  induction todos generalizing k with
  | nil => exact absurd hk (by simp)
  | cons t ts ih =>
    cases k with
    | zero =>
      simp only [List.get] at hid
      simp [editFirst, hid]
    | succ k' =>
      have hne : t.id ≠ i := by
        have := hfirst
        simp [List.all_cons] at this
        exact this.1
      have hk' : k' < ts.length := by simpa using hk
      have hfirst' : (ts.take k').all (fun t => t.id != i) = true := by
        have := hfirst
        simp [List.all_cons] at this
        simpa using this.2
      simp only [editFirst, if_neg hne]
      have := ih k' hk' (by simpa using hid) hfirst'
      simp [this]

/-- C10: when a record with the id exists, editTodo writes a collection
in which only the title of the first matching record changed; that
record keeps its id, timestamp and done flag, and every record before and
after it, and their order, are untouched. -/
theorem editTodo_frame (todos : List Todo) (i : Nat) (title : String) (k : Nat)
    (hk : k < todos.length) (hid : (todos.get ⟨k, hk⟩).id = i)
    (hfirst : (todos.take k).all (fun t => t.id != i) = true) :
    editTodo todos i title =
      (true, some (todos.take k ++ { todos.get ⟨k, hk⟩ with title := title } :: todos.drop (k + 1))) := by
  have hmem : ∃ t, t ∈ todos ∧ (fun t : Todo => t.id == i) t := by
    refine ⟨todos.get ⟨k, hk⟩, List.get_mem todos k hk, by simpa using hid⟩
  have hsome : (todos.find? (fun t => t.id == i)).isSome := List.find?_isSome.mpr hmem
  rcases hfound : todos.find? (fun t => t.id == i) with _ | u
  · rw [hfound] at hsome
    simp at hsome
  · simp [editTodo, hfound, editFirst_eq todos i title k hk hid hfirst]

theorem editTodo_frame_w :
    editTodo
      [{ id := 1, title := "a", timestamp := "t1", done := false },
       { id := 2, title := "b", timestamp := "t2", done := true }] 2 "x" =
      (true, some [{ id := 1, title := "a", timestamp := "t1", done := false },
                   { id := 2, title := "x", timestamp := "t2", done := true }]) := by
  have h := editTodo_frame
    [{ id := 1, title := "a", timestamp := "t1", done := false },
     { id := 2, title := "b", timestamp := "t2", done := true }] 2 "x" 1
    (by decide) (by decide) (by decide)
  simpa using h

/-- C1 (amended): getMaxPage is exactly the ceiling of the filtered count
over the page size, i.e. the least page count whose pages cover the
filtered sequence — with no lower bound of 1, so it is 0 for an empty
filtered set; and the pagination slice never reads past the end of the
filtered sequence: position i of the visible page is position
(page-1)*pageSize + i of the filtered sequence, which is in bounds. -/
theorem maxPage_ceil_slice_bounds (db : List Todo) (v : ViewState) (hps : 1 ≤ v.pageSize) :
    ((getFilteredTodos db v).length ≤ getMaxPage db v * v.pageSize ∧
      ∀ m, (getFilteredTodos db v).length ≤ m * v.pageSize → getMaxPage db v ≤ m) ∧
    ∀ i, ∀ hi : i < (getVisibleTodos db v).length,
      ∃ hj : (v.page - 1) * v.pageSize + i < (getFilteredTodos db v).length,
        (getVisibleTodos db v).get ⟨i, hi⟩ =
          (getFilteredTodos db v).get ⟨(v.page - 1) * v.pageSize + i, hj⟩ := by
  have hps0 : 0 < v.pageSize := hps
  constructor
  · constructor
    · show (getFilteredTodos db v).length ≤
        (((getFilteredTodos db v).length + v.pageSize - 1) / v.pageSize) * v.pageSize
      have hdm := Nat.div_add_mod ((getFilteredTodos db v).length + v.pageSize - 1) v.pageSize
      have hr := Nat.mod_lt ((getFilteredTodos db v).length + v.pageSize - 1) hps0
      rw [Nat.mul_comm]
      omega
    · intro m hm
      show ((getFilteredTodos db v).length + v.pageSize - 1) / v.pageSize ≤ m
      rw [Nat.div_le_iff_le_mul_add_pred hps0]
      rw [Nat.mul_comm] at hm
      omega
  · intro i hi
    have hlen : (getVisibleTodos db v).length =
        min (v.page * v.pageSize) (getFilteredTodos db v).length -
          (v.page - 1) * v.pageSize := by
      simp [getVisibleTodos]
    have hmin : min (v.page * v.pageSize) (getFilteredTodos db v).length ≤
        (getFilteredTodos db v).length := Nat.min_le_right _ _
    have hj : (v.page - 1) * v.pageSize + i < (getFilteredTodos db v).length := by omega
    refine ⟨hj, ?_⟩
    simp [getVisibleTodos, List.get_eq_getElem, List.getElem_drop, List.getElem_take]

/-- C1, counterexample to the claim as stated: for the empty dataset and
the default view state the filtered set is empty and _getMaxPage returns
0, not the claimed minimum of 1. -/
theorem maxPage_empty_counterexample :
    getMaxPage ([] : List Todo) {} = 0 ∧ getMaxPage ([] : List Todo) {} ≠ 1 := by
  decide

theorem maxPage_ceil_slice_bounds_w :
    (getFilteredTodos [{ id := 1, title := "a", timestamp := "t1", done := false }]
        ({} : ViewState)).length ≤
      getMaxPage [{ id := 1, title := "a", timestamp := "t1", done := false }] {} *
        ({} : ViewState).pageSize :=
  (maxPage_ceil_slice_bounds [{ id := 1, title := "a", timestamp := "t1", done := false }] {}
    (by decide)).1.1

theorem startsWithList_iff (n h : List Char) :
    startsWithList n h = true ↔ ∃ rest, h = n ++ rest := by
  induction n generalizing h with
  | nil => simp [startsWithList]
  | cons a as ih =>
    cases h with
    | nil => simp [startsWithList]
    | cons b bs =>
      simp only [startsWithList, Bool.and_eq_true, beq_iff_eq, ih, List.cons_append,
        List.cons.injEq]
      constructor
      · rintro ⟨rfl, rest, rfl⟩
        exact ⟨rest, rfl, rfl⟩
      · rintro ⟨rest, rfl, rfl⟩
        exact ⟨rfl, rest, rfl⟩

theorem containsSub_iff (n h : List Char) :
    containsSub n h = true ↔ ∃ pre post, h = pre ++ n ++ post := by
  induction h with
  | nil =>
    simp only [containsSub, List.isEmpty_iff]
    constructor
    · rintro rfl
      exact ⟨[], [], rfl⟩
    · rintro ⟨pre, post, hp⟩
      rcases List.append_eq_nil.mp hp.symm with ⟨h1, h2⟩
      exact (List.append_eq_nil.mp h1).2
  | cons b bs ih =>
    simp only [containsSub, Bool.or_eq_true, startsWithList_iff, ih]
    constructor
    · rintro (⟨rest, hr⟩ | ⟨pre, post, hp⟩)
      · exact ⟨[], rest, by simp [hr]⟩
      · exact ⟨b :: pre, post, by simp [hp]⟩
    · rintro ⟨pre, post, hp⟩
      cases pre with
      | nil =>
        exact Or.inl ⟨post, by simpa using hp⟩
      | cons p ps =>
        simp only [List.cons_append, List.cons.injEq] at hp
        exact Or.inr ⟨ps, post, hp.2⟩

/-- C4 (amended): the search stage of the pipeline (isolated here by a
default sort, ascending order and no hide-completed flag) keeps a record
iff every term obtained by splitting the search text on the space
character — not on general whitespace — occurs, after trimming, in the
record's title as a case-insensitive literal substring; empty search text
keeps the dataset unchanged. -/
theorem search_filter_spec (db : List Todo) (v : ViewState)
    (hhide : v.hideCompleted = false) (hsb : v.sortBy = .timestamp) (hor : v.order = .asc) :
    (v.search = "" → getFilteredTodos db v = db) ∧
    ∀ t, t ∈ getFilteredTodos db v ↔
      t ∈ db ∧ ∀ term ∈ splitChar ' ' v.search.toList, occursCI (trimChars term) t.title.toList := by
  constructor
  · intro hs
    simp [getFilteredTodos, hs, hhide, hsb, hor]
  · intro t
    by_cases hs : v.search = ""
    · have hdb : getFilteredTodos db v = db := by
        simp [getFilteredTodos, hs, hhide, hsb, hor]
      rw [hdb, hs]
      constructor
      · intro ht
        refine ⟨ht, ?_⟩
        intro term hterm
        have he : splitChar ' ' "".toList = [[]] := rfl
        rw [he] at hterm
        simp only [List.mem_cons, List.not_mem_nil, or_false] at hterm
        subst hterm
        exact ⟨lowerList t.title.toList, [], by simp [trimChars, lowerList]⟩
      · exact fun h => h.1
    · simp only [getFilteredTodos, hhide, hsb, hor, if_neg (by simp [hs] : ¬v.search ≠ "" → False)]
      simp only [if_pos hs, if_neg (by simp : ¬(SortKey.timestamp ≠ SortKey.timestamp)),
        if_neg (by simp : ¬(SortOrder.asc = SortOrder.desc))]
      rw [List.mem_filter]
      simp only [matchesSearch, List.all_eq_true, termMatches, containsSub_iff]
      rfl

/-- C4, counterexample to the claim as stated: with the search text
containing a tab, the code produces the single term a-tab-b and rejects
the title, although every whitespace-separated term of the search text
occurs in the title. -/
theorem search_whitespace_counterexample :
    getFilteredTodos [{ id := 1, title := "a b", timestamp := "t0", done := false }]
        { search := "a\tb" } = [] ∧
    ∀ term ∈ specWsTerms "a\tb".toList, occursCI term "a b".toList := by
  constructor
  · decide
  · intro term hterm
    have hterms : specWsTerms "a\tb".toList = [['a'], ['b']] := by decide
    rw [hterms] at hterm
    simp only [List.mem_cons, List.not_mem_nil, or_false] at hterm
    rcases hterm with rfl | rfl
    · exact ⟨[], [' ', 'b'], by decide⟩
    · exact ⟨['a', ' '], [], by decide⟩

theorem search_filter_spec_w :
    ({ search := "milk" : ViewState }.search = "" →
      getFilteredTodos [{ id := 1, title := "Buy Milk", timestamp := "t0", done := false }]
        { search := "milk" } =
        [{ id := 1, title := "Buy Milk", timestamp := "t0", done := false }]) ∧
    ∀ t, t ∈ getFilteredTodos [{ id := 1, title := "Buy Milk", timestamp := "t0", done := false }]
        { search := "milk" } ↔
      t ∈ [{ id := 1, title := "Buy Milk", timestamp := "t0", done := false }] ∧
        ∀ term ∈ splitChar ' ' ({ search := "milk" : ViewState }).search.toList,
          occursCI (trimChars term) t.title.toList :=
  search_filter_spec [{ id := 1, title := "Buy Milk", timestamp := "t0", done := false }]
    { search := "milk" } (by decide) (by decide) (by decide)

theorem sortRel_status_iff (x y : Todo) :
    sortRel .status x y ↔
      (x.done = y.done ∧ x.timestamp ≤ y.timestamp) ∨ (x.done = false ∧ y.done = true) := by
  have lkey : ∀ a b : String, lcmp a b ≤ 0 ↔ a ≤ b := by
    intro a b
    unfold lcmp
    rcases lt_trichotomy a b with h | h | h
    · rw [if_pos h]
      exact iff_of_true (by norm_num) h.le
    · subst h
      simp [lt_irrefl]
    · rw [if_neg (lt_asymm h), if_pos h]
      exact iff_of_false (by norm_num) (not_le.mpr h)
  show todoCmp .status x y ≤ 0 ↔ _
  simp only [todoCmp]
  cases hxd : x.done <;> cases hyd : y.done <;> simp [hxd, hyd, lkey]

/-- C5: when the sort key is status and the order ascending (i.e. before
any descending reversal), the derived list never places a done record
before a not-done one, and any two records of equal status appear in
ascending timestamp order — the status sort is stable with respect to the
creation timestamp among equal-status records. -/
theorem status_sort_spec (db : List Todo) (v : ViewState)
    (hsb : v.sortBy = .status) (hor : v.order = .asc) :
    (getFilteredTodos db v).Pairwise
      (fun a b => (a.done = true → b.done = true) ∧
        (a.done = b.done → a.timestamp ≤ b.timestamp)) := by
  have hsorted :
      (getFilteredTodos db v).Pairwise (sortRel .status) := by
    unfold getFilteredTodos
    rw [hsb, hor]
    simp only [if_neg (by simp : ¬(SortOrder.asc = SortOrder.desc)),
      if_pos (by simp : SortKey.status ≠ SortKey.timestamp)]
    exact List.sorted_insertionSort (sortRel .status) _
  refine hsorted.imp ?_
  intro a b hr
  rw [sortRel_status_iff] at hr
  rcases hr with ⟨he, ht⟩ | ⟨ha, hb⟩
  · exact ⟨fun h => he ▸ h, fun _ => ht⟩
  · exact ⟨fun h => hb, fun h => Bool.noConfusion (ha.symm.trans (h.trans hb))⟩

theorem status_sort_spec_w :
    (getFilteredTodos
      [{ id := 1, title := "b", timestamp := "t2", done := true },
       { id := 2, title := "a", timestamp := "t1", done := false }]
      { sortBy := .status }).Pairwise
      (fun a b => (a.done = true → b.done = true) ∧
        (a.done = b.done → a.timestamp ≤ b.timestamp)) :=
  status_sort_spec
    [{ id := 1, title := "b", timestamp := "t2", done := true },
     { id := 2, title := "a", timestamp := "t1", done := false }]
    { sortBy := .status } (by decide) (by decide)

/-- C3 (amended): a todo is treated as selected — by the resolution the
display and the command-availability logic use — iff selectedId holds a
nonzero id and a record with that id occurs in the currently visible
page; but a merely stale selectedId is not treated as absent by the
handlers themselves: the select command then deselects instead of
prompting for an index (and toggle/delete/edit address the store by the
raw id, see the counterexample). -/
theorem selection_resolution (db : List Todo) (v : ViewState) :
    ((getSelectedTodo db v).isSome ↔
      ∃ i, v.selectedTodoId = some i ∧ i ≠ 0 ∧ ∃ t ∈ getVisibleTodos db v, t.id = i) ∧
    (∀ n i, v.selectedTodoId = some i → i ≠ 0 →
      applyCmd { db := db, view := v } (.select n) =
        { db := db, view := { v with selectedTodoId := none } }) := by
  constructor
  · cases hsel : v.selectedTodoId with
    | none => simp [getSelectedTodo, hsel]
    | some i =>
      by_cases hi : i = 0
      · subst hi
        simp [getSelectedTodo, hsel]
      · simp only [getSelectedTodo, hsel]
        rw [if_neg hi, List.find?_isSome]
        constructor
        · rintro ⟨t, ht, hp⟩
          exact ⟨i, rfl, hi, t, ht, by simpa using hp⟩
        · rintro ⟨j, hj, hj0, t, ht, hid⟩
          obtain rfl : j = i := by simpa using hj.symm
          exact ⟨t, ht, by simpa using hid⟩
  · intro n i hsel hi
    have htruthy : idTruthy v.selectedTodoId = true := by
      rw [hsel]
      simpa [idTruthy] using hi
    simp [applyCmd, htruthy]

/-- C3, counterexample to the claim as stated: the store holds one done
record, hide-completed is on, so the selection of id 1 resolves to
nothing — yet the toggle-done handler still flips the hidden record in
the store instead of behaving as if nothing were selected. -/
theorem stale_selection_counterexample :
    getSelectedTodo [{ id := 1, title := "a", timestamp := "t1", done := true }]
        { hideCompleted := true, selectedTodoId := some 1 } = none ∧
    (applyCmd { db := [{ id := 1, title := "a", timestamp := "t1", done := true }],
                view := { hideCompleted := true, selectedTodoId := some 1 } } .toggleDone).db ≠
      [{ id := 1, title := "a", timestamp := "t1", done := true }] := by
  decide

theorem selection_resolution_w :
    applyCmd { db := [{ id := 1, title := "a", timestamp := "t1", done := true }],
               view := { hideCompleted := true, selectedTodoId := some 1 } } (.select 1) =
      { db := [{ id := 1, title := "a", timestamp := "t1", done := true }],
        view := { hideCompleted := true, selectedTodoId := none } } :=
  (selection_resolution [{ id := 1, title := "a", timestamp := "t1", done := true }]
    { hideCompleted := true, selectedTodoId := some 1 }).2 1 1 rfl (by decide)

/-- C7: in the select prompt, an index outside the 1-based range of the
current visible page (including 0) is rejected: the loop reports the
error, re-prompts, and the whole session state — view state, selection
and store — is unchanged; an index inside the range is accepted and only
sets selectedId to the id of the todo at that page-relative position. -/
theorem select_index_spec (s : State) (n : Nat) :
    (¬(1 ≤ n ∧ n ≤ (getVisibleTodos s.db s.view).length) → selectTodoStep s n = (s, false)) ∧
    (∀ _ : 1 ≤ n, ∀ _ : n ≤ (getVisibleTodos s.db s.view).length,
      ∃ hlt : n - 1 < (getVisibleTodos s.db s.view).length,
        selectTodoStep s n = ({ s with view := { s.view with selectedTodoId := some (((getVisibleTodos s.db s.view).get ⟨n - 1, hlt⟩).id) } }, true)) := by
  constructor
  · intro h
    unfold selectTodoStep
    by_cases hz : n = 0
    · rw [if_pos hz]
    · rw [if_neg hz]
      have hlen : (getVisibleTodos s.db s.view).length ≤ n - 1 := by omega
      rw [List.getElem?_eq_none hlen]
  · intro h1 h2
    have hlt : n - 1 < (getVisibleTodos s.db s.view).length := by omega
    refine ⟨hlt, ?_⟩
    unfold selectTodoStep
    rw [if_neg (by omega : ¬n = 0), List.getElem?_eq_getElem hlt]
    simp [List.get_eq_getElem]

theorem select_index_spec_w :
    selectTodoStep { db := [], view := {} } 1 = ({ db := [], view := {} }, false) ∧
    selectTodoStep
        { db := [{ id := 7, title := "a", timestamp := "t1", done := false }], view := {} } 1 =
      ({ db := [{ id := 7, title := "a", timestamp := "t1", done := false }],
         view := { selectedTodoId := some 7 } }, true) := by
  constructor
  · exact (select_index_spec { db := [], view := {} } 1).1 (by decide)
  · have h := (select_index_spec
      { db := [{ id := 7, title := "a", timestamp := "t1", done := false }], view := {} } 1).2
      (by decide) (by decide)
    rcases h with ⟨hlt, heq⟩
    rw [heq]
    rfl

/-- C8: one render neither changes the backing file nor the view state,
and a second render on what the first left behind produces the identical
visible sequence: the derivation pipeline is a pure function of the pair
(dataset, view state).  In the code this rests on getTodos re-parsing the
file on every call, so the in-place sort and reverse inside
_getFilteredTodos only ever touch the fresh copy. -/
theorem derive_pure (file : List Todo) (v : ViewState) :
    (deriveView file v).2.1 = file ∧
    (deriveView file v).2.2 = v ∧
    (deriveView (deriveView file v).2.1 (deriveView file v).2.2).1 = (deriveView file v).1 ∧
    (deriveView file v).1 = getVisibleTodos file v :=
  ⟨rfl, rfl, rfl, rfl⟩

/-- C2: evaluation of the code on the failing input.  From the empty
store, add two todos, delete the one with id 1, and add a third: addTodo
assigns the new id as count+1 = 2, which collides with the surviving
record of id 2, so the reachable collection violates id uniqueness. -/
theorem duplicate_ids_reachable :
    DbReachable
      [{ id := 2, title := "b", timestamp := "t2", done := false },
       { id := 2, title := "c", timestamp := "t3", done := false }] ∧
    ¬ ([{ id := 2, title := "b", timestamp := "t2", done := false },
        { id := 2, title := "c", timestamp := "t3", done := false }] : List Todo).Pairwise
        (fun a b => a.id ≠ b.id) := by
  constructor
  · have h1 : DbStep [] [{ id := 1, title := "a", timestamp := "t1", done := false }] :=
      ⟨.add "a" "t1", by decide⟩
    have h2 : DbStep [{ id := 1, title := "a", timestamp := "t1", done := false }]
        [{ id := 1, title := "a", timestamp := "t1", done := false },
         { id := 2, title := "b", timestamp := "t2", done := false }] :=
      ⟨.add "b" "t2", by decide⟩
    have h3 : DbStep
        [{ id := 1, title := "a", timestamp := "t1", done := false },
         { id := 2, title := "b", timestamp := "t2", done := false }]
        [{ id := 2, title := "b", timestamp := "t2", done := false }] :=
      ⟨.delete 1, by decide⟩
    have h4 : DbStep [{ id := 2, title := "b", timestamp := "t2", done := false }]
        [{ id := 2, title := "b", timestamp := "t2", done := false },
         { id := 2, title := "c", timestamp := "t3", done := false }] :=
      ⟨.add "c" "t3", by decide⟩
    exact Relation.ReflTransGen.tail
      (Relation.ReflTransGen.tail
        (Relation.ReflTransGen.tail (Relation.ReflTransGen.tail Relation.ReflTransGen.refl h1) h2)
        h3) h4
  · intro h
    have := (List.pairwise_cons.mp h).1
      { id := 2, title := "c", timestamp := "t3", done := false } (by simp)
    exact this rfl

theorem offered_prevPage_iff (s : State) :
    offered s .prevPage = true ↔ getSelectedTodo s.db s.view = none ∧ 1 < s.view.page := by
  unfold offered
  cases h : getSelectedTodo s.db s.view <;> simp [h]

theorem offered_nextPage_iff (s : State) :
    offered s .nextPage = true ↔
      getSelectedTodo s.db s.view = none ∧ s.view.page < getMaxPage s.db s.view := by
  unfold offered
  cases h : getSelectedTodo s.db s.view <;> simp [h]

theorem selectTodoStep_fst_page (s : State) (n : Nat) :
    (selectTodoStep s n).1.view.page = s.view.page := by
  unfold selectTodoStep
  split
  · rfl
  · cases h : (getVisibleTodos s.db s.view)[n - 1]? <;> simp [h]

theorem applyCmd_page_cases (s : State) (c : Cmd) :
    (applyCmd s c).view.page = s.view.page ∨
    (c = .nextPage ∧ (applyCmd s c).view.page = s.view.page + 1) ∨
    (c = .prevPage ∧ (applyCmd s c).view.page = s.view.page - 1) := by
  cases c with
  | nextPage => exact Or.inr (Or.inl ⟨rfl, rfl⟩)
  | prevPage => exact Or.inr (Or.inr ⟨rfl, rfl⟩)
  | reorder sb ord =>
    left
    show (if _ then _ else _ : State).view.page = _
    split <;> rfl
  | search q =>
    left
    show (if _ then _ else _ : State).view.page = _
    split <;> rfl
  | select n =>
    left
    show (if _ then _ else _ : State).view.page = _
    split
    · rfl
    · exact selectTodoStep_fst_page s n
  | toggleDone =>
    left
    cases h : s.view.selectedTodoId with
    | none => simp [applyCmd, h]
    | some i => by_cases hi : i = 0 <;> simp [applyCmd, h, hi]
  | deleteSel =>
    left
    cases h : s.view.selectedTodoId with
    | none => simp [applyCmd, h]
    | some i => by_cases hi : i = 0 <;> simp [applyCmd, h, hi]
  | editSel title =>
    left
    cases h : s.view.selectedTodoId with
    | none => simp [applyCmd, h]
    | some i => by_cases hi : i = 0 <;> simp [applyCmd, h, hi]
  | _ => exact Or.inl rfl

theorem reachable_page_pos (s : State) (h : ReachableS s) : 1 ≤ s.view.page := by
  induction h with
  | refl => exact Nat.le_refl 1
  | @tail b c hab hstep ih =>
    obtain ⟨cmd, hoff, rfl⟩ := hstep
    rcases applyCmd_page_cases b cmd with heq | ⟨rfl, heq⟩ | ⟨rfl, heq⟩
    · omega
    · omega
    · have := (offered_prevPage_iff b).mp hoff
      omega

/-- C6 (amended): in every reachable session state the page is at least
1; with no resolved selection, previous page is offered iff page > 1 and
next page iff page < maxPage (with maxPage = ceil(filteredCount/pageSize)
and no lower bound of 1); the two handlers move the page by exactly one
and, when offered, keep it inside [1, maxPage] whenever it was; but the
filter-mutating commands do not re-clamp the page, which can therefore
exceed maxPage (see the counterexample). -/
theorem page_navigation_spec :
    (∀ s, ReachableS s → 1 ≤ s.view.page) ∧
    (∀ s : State,
      (offered s .prevPage = true ↔ getSelectedTodo s.db s.view = none ∧ 1 < s.view.page) ∧
      (offered s .nextPage = true ↔
        getSelectedTodo s.db s.view = none ∧ s.view.page < getMaxPage s.db s.view)) ∧
    (∀ s : State, (applyCmd s .nextPage).view.page = s.view.page + 1 ∧
      (applyCmd s .prevPage).view.page = s.view.page - 1) ∧
    (∀ s : State, offered s .nextPage = true →
      1 ≤ (applyCmd s .nextPage).view.page ∧
      (applyCmd s .nextPage).view.page ≤
        getMaxPage (applyCmd s .nextPage).db (applyCmd s .nextPage).view) ∧
    (∀ s : State, offered s .prevPage = true →
      1 ≤ (applyCmd s .prevPage).view.page ∧
      (s.view.page ≤ getMaxPage s.db s.view →
        (applyCmd s .prevPage).view.page ≤
          getMaxPage (applyCmd s .prevPage).db (applyCmd s .prevPage).view)) := by
  have hmaxnext : ∀ s : State,
      getMaxPage (applyCmd s .nextPage).db (applyCmd s .nextPage).view =
        getMaxPage s.db s.view := fun _ => rfl
  have hmaxprev : ∀ s : State,
      getMaxPage (applyCmd s .prevPage).db (applyCmd s .prevPage).view =
        getMaxPage s.db s.view := fun _ => rfl
  refine ⟨reachable_page_pos, fun s => ⟨offered_prevPage_iff s, offered_nextPage_iff s⟩,
    fun s => ⟨rfl, rfl⟩, fun s hoff => ?_, fun s hoff => ?_⟩
  · have := (offered_nextPage_iff s).mp hoff
    rw [hmaxnext]
    show 1 ≤ s.view.page + 1 ∧ s.view.page + 1 ≤ getMaxPage s.db s.view
    omega
  · have := (offered_prevPage_iff s).mp hoff
    rw [hmaxprev]
    show 1 ≤ s.view.page - 1 ∧ _
    refine ⟨by omega, fun hle => ?_⟩
    show s.view.page - 1 ≤ getMaxPage s.db s.view
    omega

theorem page_navigation_spec_w :
    1 ≤ initState.view.page ∧
    (offered initState .nextPage = true ↔
      getSelectedTodo initState.db initState.view = none ∧
        initState.view.page < getMaxPage initState.db initState.view) :=
  ⟨page_navigation_spec.1 initState Relation.ReflTransGen.refl,
   (page_navigation_spec.2.1 initState).2⟩

/-- C6, counterexample to the claim as stated: set the page size to 1,
add two todos, move to page 2 (offered, since maxPage is then 2), and
start a search that matches nothing — every step an offered command —
reaching a state whose page 2 exceeds maxPage, even with the claimed
minimum of 1 applied. -/
theorem page_overflow_counterexample :
    ReachableS
      { db := [{ id := 1, title := "a", timestamp := "t1", done := false },
               { id := 2, title := "b", timestamp := "t2", done := false }],
        view := { page := 2, pageSize := 1, search := "z" } } ∧
    max 1 (getMaxPage
      [{ id := 1, title := "a", timestamp := "t1", done := false },
       { id := 2, title := "b", timestamp := "t2", done := false }]
      { page := 2, pageSize := 1, search := "z" }) <
      ({ page := 2, pageSize := 1, search := "z" } : ViewState).page := by
  constructor
  · have h1 : SessStep initState { db := [], view := { pageSize := 1 } } :=
      ⟨.pageSize 1, by decide, by decide⟩
    have h2 : SessStep { db := [], view := { pageSize := 1 } }
        { db := [{ id := 1, title := "a", timestamp := "t1", done := false }],
          view := { pageSize := 1 } } :=
      ⟨.add "a" "t1", by decide, by decide⟩
    have h3 : SessStep
        { db := [{ id := 1, title := "a", timestamp := "t1", done := false }],
          view := { pageSize := 1 } }
        { db := [{ id := 1, title := "a", timestamp := "t1", done := false },
                 { id := 2, title := "b", timestamp := "t2", done := false }],
          view := { pageSize := 1 } } :=
      ⟨.add "b" "t2", by decide, by decide⟩
    have h4 : SessStep
        { db := [{ id := 1, title := "a", timestamp := "t1", done := false },
                 { id := 2, title := "b", timestamp := "t2", done := false }],
          view := { pageSize := 1 } }
        { db := [{ id := 1, title := "a", timestamp := "t1", done := false },
                 { id := 2, title := "b", timestamp := "t2", done := false }],
          view := { page := 2, pageSize := 1 } } :=
      ⟨.nextPage, by decide, by decide⟩
    have h5 : SessStep
        { db := [{ id := 1, title := "a", timestamp := "t1", done := false },
                 { id := 2, title := "b", timestamp := "t2", done := false }],
          view := { page := 2, pageSize := 1 } }
        { db := [{ id := 1, title := "a", timestamp := "t1", done := false },
                 { id := 2, title := "b", timestamp := "t2", done := false }],
          view := { page := 2, pageSize := 1, search := "z" } } :=
      ⟨.search "z", by decide, by decide⟩
    exact Relation.ReflTransGen.tail
      (Relation.ReflTransGen.tail
        (Relation.ReflTransGen.tail
          (Relation.ReflTransGen.tail (Relation.ReflTransGen.tail Relation.ReflTransGen.refl h1)
            h2) h3) h4) h5
  · decide

end TodoCli
